import Mathlib

/-!
A shallow embedding of the table-reconstruction pipeline of the City of
Prospect development-application scraper (src/scraper.js), together with
theorems settling the specification claims about it.

JavaScript numbers are modelled as rationals (all values occurring in the
pipeline are produced by integer pixel coordinates, integer confidences and
divisions, so `Rat` is exact for them); OCR words, table columns, cells and
rows are modelled as structures mirroring the ad-hoc object literals of the
source.  Mutation of the source is turned into explicit state passing.
-/

set_option maxRecDepth 10000

namespace Scraper

/-- Bounding box of a recognized word, as built in `parseImage`
(src/scraper.js line 498). -/
structure Bounds where
  x : ℚ
  y : ℚ
  width : ℚ
  height : ℚ
deriving DecidableEq, Repr

/-- A recognized word as simplified from the tesseract output
(src/scraper.js line 498): text, confidence, number of alternative
choices and a bounding box. -/
structure Word where
  text : String
  confidence : ℚ
  choices : ℕ
  bounds : Bounds
deriving DecidableEq, Repr

/-- A line is the ordered list of its words. -/
abbrev Line := List Word

/-- A candidate column: its starting x coordinate and how many word starts
supported it (src/scraper.js line 214). -/
structure Column where
  x : ℚ
  count : ℕ
deriving DecidableEq, Repr

/-- One cell of a row (src/scraper.js line 295): the y coordinate of the
last column-aligned word routed to it, the accumulated word texts, the
joined text, the accumulated word confidences and the aggregate
confidence. -/
structure Cell where
  y : Option ℚ
  texts : List String
  text : String
  confidences : List ℚ
  confidence : ℚ
deriving DecidableEq, Repr

/-- A row is the list of its cells, one per located column. -/
abbrev Row := List Cell

/-- The cell a fresh row starts from (src/scraper.js line 295). -/
def emptyCell : Cell := ⟨none, [], "", [], 0⟩

/-- `row[i]` access; the source only ever indexes within bounds. -/
def cellAt (row : Row) (i : ℕ) : Cell := row.getD i emptyCell

-- Constants from src/scraper.js lines 25-30.

/-- The assumed minimal horizontal gap between columns, in pixels
(src/scraper.js line 28); also the start value of the shrinking gap loop
of `findColumns`. -/
def ColumnGap : ℕ := 15

/-- Horizontal tolerance for a word to count as aligned with a column
start (src/scraper.js line 29). -/
def ColumnAlignment : ℚ := 10

/-- Vertical tolerance for two rows to count as the same line
(src/scraper.js line 30). -/
def LineAlignment : ℚ := 5

/-! ### Column locator (`findColumns`, src/scraper.js lines 192-236) -/

/-- Record one candidate column start at x coordinate `x`: bump the count
of the first existing column within `align` pixels, else append a new
column of count 1 (src/scraper.js lines 210-214). -/
def addCandidate (align : ℚ) : List Column → ℚ → List Column
  | [], x => [⟨x, 1⟩]
  | c :: rest, x =>
      if |x - c.x| < align then ⟨c.x, c.count + 1⟩ :: rest
      else c :: addCandidate align rest x

/-- Walk one line left to right; a word whose distance from the end of the
previous word is at least `gap` (and the first word of the line) is a
candidate column start (src/scraper.js lines 202-217). -/
def scanLine (gap align : ℚ) (cols : List Column) (line : Line) : List Column :=
  (line.foldl
    (fun acc w =>
      match acc.2 with
      | none => (addCandidate align acc.1 w.bounds.x, some w)
      | some p =>
          (if gap ≤ w.bounds.x - (p.bounds.x + p.bounds.width) then
             addCandidate align acc.1 w.bounds.x
           else acc.1, some w))
    ((cols, (none : Option Word)))).1

/-- Candidate columns collected over all lines. -/
def candidateColumns (gap align : ℚ) (lines : List Line) : List Column :=
  lines.foldl (scanLine gap align) []

/-- Ordering of columns by starting x, as the sort comparator of
src/scraper.js line 227 induces. -/
def colLE (c1 c2 : Column) : Prop := c1.x ≤ c2.x

instance : DecidableRel colLE := fun c1 c2 => inferInstanceAs (Decidable (c1.x ≤ c2.x))

instance : IsTotal Column colLE := ⟨fun c1 c2 => le_total c1.x c2.x⟩

instance : IsTrans Column colLE := ⟨fun _ _ _ h1 h2 => le_trans h1 h2⟩

/-- One attempt of `findColumns` at gap threshold `g`: collect candidates,
drop the ones whose count is at most half the average over the five
expected columns, and sort by x (src/scraper.js lines 201-227). -/
def tryGap (lines : List Line) (sf : ℚ) (g : ℕ) : List Column :=
  let cols := candidateColumns ((g : ℚ) * sf) (ColumnAlignment * sf) lines
  let total : ℕ := (cols.map (fun c => c.count)).sum
  let avg : ℚ := (total : ℚ) / 5
  List.insertionSort colLE (cols.filter (fun c => decide (avg / 2 < (c.count : ℚ))))

/-- The shrinking-gap loop of `findColumns`: try thresholds `g`, `g - 1`,
..., `1`, returning the first attempt that yields exactly five columns
(src/scraper.js lines 196-233). -/
def findColumnsAux (lines : List Line) (sf : ℚ) : ℕ → Option (List Column)
  | 0 => none
  | g + 1 =>
      let cols := tryGap lines sf (g + 1)
      if cols.length = 5 then some cols else findColumnsAux lines sf g

/-- `findColumns` (src/scraper.js lines 192-236): exactly five columns, or
`none` after exhausting all gap thresholds from `ColumnGap` down to 1. -/
def findColumns (lines : List Line) (sf : ℚ) : Option (List Column) :=
  findColumnsAux lines sf ColumnGap

/-- Two columns at least `a` apart in x (used to show located columns are distinct). -/
def ColSep (a : ℚ) (c1 c2 : Column) : Prop := a ≤ |c1.x - c2.x|

/-! ### Row assembler (`parseLines`, src/scraper.js lines 291-338) -/

/-- Replace the cell at index `j` by `f` of it; out-of-range indices leave
the row unchanged (the source only ever uses in-range indices). -/
def updateCell : List Cell → ℕ → (Cell → Cell) → List Cell
  | [], _, _ => []
  | c :: rest, 0, f => f c :: rest
  | c :: rest, j + 1, f => c :: updateCell rest j f

/-- Index of the first column whose x is within `ColumnAlignment * sf` of
`x` (src/scraper.js line 305), JavaScript `findIndex` semantics. -/
def findAlignedIdx (sf x : ℚ) : List Column → Option ℕ
  | [] => none
  | c :: rest =>
      if |c.x - x| < ColumnAlignment * sf then some 0
      else (findAlignedIdx sf x rest).map (fun j => j + 1)

/-- Record the y of a column-aligned word on its cell
(src/scraper.js line 308). -/
def setCellY (w : Word) (c : Cell) : Cell := { c with y := some w.bounds.y }

/-- Append a word's text and confidence to the cell at index `j`
(src/scraper.js lines 314-315). -/
def pushWord (w : Word) (row : List Cell) (j : ℕ) : List Cell :=
  updateCell row j
    (fun c => { c with texts := c.texts ++ [w.text], confidences := c.confidences ++ [w.confidence] })

/-- One step of the word-to-column routing loop (src/scraper.js lines
300-317): if the word aligns with a column start, switch the current cell
to that column and record its y; then append the word to the current cell,
if any. -/
def rowStep (cols : List Column) (sf : ℚ) (acc : List Cell × Option ℕ) (w : Word) :
    List Cell × Option ℕ :=
  match findAlignedIdx sf w.bounds.x cols with
  | some j => (pushWord w (updateCell acc.1 j (setCellY w)) j, some j)
  | none =>
      match acc.2 with
      | some j => (pushWord w acc.1 j, some j)
      | none => (acc.1, none)

/-- Route all words of a line into the row's cells, starting from a row of
empty cells and no current cell (src/scraper.js lines 295-317). -/
def assembleWords (cols : List Column) (sf : ℚ) (line : Line) : List Cell × Option ℕ :=
  line.foldl (rowStep cols sf) (cols.map (fun _ => emptyCell), none)

/-- Aggregate a cell's confidence as the average of its words'
confidences, with `Math.max(1, length)` guarding the empty cell
(src/scraper.js line 322). -/
def aggregateCell (c : Cell) : Cell :=
  { c with confidence := c.confidences.sum / ((max 1 c.confidences.length : ℕ) : ℚ) }

/-- JavaScript `String.prototype.trim`. -/
def jsTrim (s : String) : String :=
  String.mk (((s.toList.dropWhile Char.isWhitespace).reverse.dropWhile Char.isWhitespace).reverse)

/-- Concatenate a list of strings with no separator (JavaScript
`join("")`). -/
def joinAll : List String → String
  | [] => ""
  | t :: rest => t ++ joinAll rest

/-- Concatenate a list of strings with single spaces (JavaScript
`join(" ")`). -/
def joinSpace : List String → String
  | [] => ""
  | [t] => t
  | t :: rest => t ++ " " ++ joinSpace rest

/-- Join a cell's word texts into its text (src/scraper.js lines 326-330):
the received date and application number columns (indices 0 and 1) join
with no separator, the remaining three columns join with spaces; the
result is trimmed. -/
def joinCellText (i : ℕ) (c : Cell) : Cell :=
  if i < 2 then { c with text := jsTrim (joinAll c.texts) }
  else if i < 5 then { c with text := jsTrim (joinSpace c.texts) }
  else c

/-- Apply `joinCellText` along the row with its column index. -/
def joinRowTexts : ℕ → List Cell → List Cell
  | _, [] => []
  | i, c :: rest => joinCellText i c :: joinRowTexts (i + 1) rest

/-- Build the row for one line (src/scraper.js lines 295-330). -/
def assembleRow (cols : List Column) (sf : ℚ) (line : Line) : Row :=
  joinRowTexts 0 ((assembleWords cols sf line).1.map aggregateCell)

/-- Whether a string contains the field separator character (JavaScript
`indexOf("/") >= 0`). -/
def hasSlash (s : String) : Bool := s.toList.any (fun c => c == '/')

/-- The row acceptance gate (src/scraper.js lines 336-338): keep a row
only if no cell has confidence below 60 and the received date or the
application number contains a slash. -/
def rowGate (row : Row) : Bool :=
  (row.find? (fun c => decide (c.confidence < 60))).isNone &&
  (hasSlash (cellAt row 0).text || hasSlash (cellAt row 1).text)

/-- The rows surviving the acceptance gate, in line order
(src/scraper.js lines 291-339). -/
def keptRows (cols : List Column) (sf : ℚ) (lines : List Line) : List Row :=
  (lines.map (assembleRow cols sf)).filter rowGate

/-! ### Row deduplicator (`mergeRows`, src/scraper.js lines 243-271) -/

/-- `Math.abs(2 - (text.split("/").length - 1))`: distance of the number
of slashes in `s` from the expected two (src/scraper.js lines 251-253). -/
def slashDistance (s : String) : ℕ := ((2 : ℤ) - (s.toList.count '/' : ℤ)).natAbs

/-- Merge the received-date or application-number cells of a bucket
(src/scraper.js lines 251-258): a later candidate replaces the running
merged cell only when its slash distance is at most the distance of the
bucket's first cell (computed once, before the loop) and its confidence is
strictly higher. -/
def mergeSlash (first : Cell) (others : List Cell) : Cell :=
  others.foldl
    (fun m c =>
      if slashDistance c.text ≤ slashDistance first.text ∧ m.confidence < c.confidence then
        { m with text := c.text, confidence := c.confidence }
      else m)
    first

/-- Merge the cells of any other column (src/scraper.js lines 262-267):
keep the candidate with the strictly highest confidence, earliest wins
ties. -/
def mergeConf (first : Cell) (others : List Cell) : Cell :=
  others.foldl
    (fun m c =>
      if m.confidence < c.confidence then { m with text := c.text, confidence := c.confidence }
      else m)
    first

/-- Merge one column of a bucket: slash-aware for columns 0 and 1,
confidence-only otherwise (src/scraper.js lines 246-268). -/
def mergeCellAt (i : ℕ) (first : Cell) (others : List Cell) : Cell :=
  if i = 0 ∨ i = 1 then mergeSlash first others else mergeConf first others

/-- Merge column `i` onwards of the bucket's first row against the other
rows' cells at the same indices (the source assumes all rows have the same
length; a missing index simply contributes no candidate here). -/
def mergeRowsAux (rest : List Row) : ℕ → List Cell → List Cell
  | _, [] => []
  | i, c :: cs => mergeCellAt i c (rest.filterMap (fun r => r.get? i)) :: mergeRowsAux rest (i + 1) cs

/-- `mergeRows` (src/scraper.js lines 243-271): merge a bucket of rows
into its first row, column by column.  The source mutates `rows[0]` in
place; this is the resulting value. -/
def mergeRows : List Row → Row
  | [] => []
  | first :: rest => mergeRowsAux rest 0 first

/-! ### Row grouping (src/scraper.js lines 344-376) -/

/-- JavaScript arithmetic coerces `null` to 0 (`group.y - row[0].y` with a
`null` y). -/
def jsCoerce : Option ℚ → ℚ
  | none => 0
  | some q => q

/-- A bucket of rows sharing a key: the y of the bucket's first row for
stage one, the application-number text for stage two. -/
structure Group (κ : Type) where
  key : κ
  rows : List Row
deriving DecidableEq, Repr

/-- Add a row to the first bucket it matches, else open a new bucket keyed
by the row (src/scraper.js lines 345-352 and 363-370). -/
def addToGroups (isMatch : κ → Row → Bool) (mkKey : Row → κ) (row : Row) :
    List (Group κ) → List (Group κ)
  | [] => [⟨mkKey row, [row]⟩]
  | g :: rest =>
      if isMatch g.key row then ⟨g.key, g.rows ++ [row]⟩ :: rest
      else g :: addToGroups isMatch mkKey row rest

/-- Fold all rows into buckets, first-match-wins. -/
def groupRows (isMatch : κ → Row → Bool) (mkKey : Row → κ) (rows : List Row) : List (Group κ) :=
  rows.foldl (fun gs r => addToGroups isMatch mkKey r gs) []

/-- Stage-one bucket match (src/scraper.js line 346):
`Math.abs(group.y - row[0].y) < LineAlignment * scaleFactor`, with
JavaScript coercing a `null` y to 0. -/
def yMatch (sf : ℚ) (key : Option ℚ) (row : Row) : Bool :=
  decide (|jsCoerce key - jsCoerce (cellAt row 0).y| < LineAlignment * sf)

/-- Group rows by vertical proximity of their first cells
(src/scraper.js lines 344-352). -/
def groupByY (sf : ℚ) (rows : List Row) : List (Group (Option ℚ)) :=
  groupRows (yMatch sf) (fun row => (cellAt row 0).y) rows

/-- Stage-two bucket match (src/scraper.js line 364): exact equality of the
application-number text. -/
def appMatch (key : String) (row : Row) : Bool := decide (key = (cellAt row 1).text)

/-- Group rows by their application-number text
(src/scraper.js lines 362-370). -/
def groupByApp (rows : List Row) : List (Group String) :=
  groupRows appMatch (fun row => (cellAt row 1).text) rows

/-! ### Field normalizer (`formatAddress`, src/scraper.js lines 132-188) -/

/-- Continuation of one row of the Levenshtein dynamic program: `pPrev` is
the previous row's entry one position back, the head of `pRest` the entry
at the current position, `left` the entry just computed for the new row. -/
def levRowGo (ca : Char) : List Char → List ℕ → ℕ → List ℕ
  | [], _, _ => []
  | _ :: _, [], _ => []
  | cb :: bs, pPrev :: pRest, left =>
      let cur := min (left + 1) (min (pRest.headD 0 + 1) (pPrev + if ca = cb then 0 else 1))
      cur :: levRowGo ca bs pRest cur

/-- One row of the Levenshtein dynamic program, for source character
`ca`. -/
def levRow (ca : Char) (b : List Char) (prevRow : List ℕ) : List ℕ :=
  (prevRow.headD 0 + 1) :: levRowGo ca b prevRow (prevRow.headD 0 + 1)

/-- Levenshtein edit distance between two character lists (unit costs). -/
def levenshtein (a b : List Char) : ℕ :=
  (a.foldl (fun row ca => levRow ca b row) (List.range (b.length + 1))).getLastD 0

/-- Lower-case a string character-wise. -/
def lowerString (s : String) : String := String.mk (s.toList.map Char.toLower)

/-- Modelled from the spec: the external fuzzy matcher (the `didyoumean2`
library, configured case-insensitive, trimming spaces, with an
edit-distance threshold and first-closest-match selection) is not part of
this repository; per the spec it returns the first vocabulary entry
achieving the minimal edit distance to the input, provided that distance
is within the threshold, and `none` otherwise. -/
def didyoumean (input : String) (vocab : List String) (threshold : ℕ) : Option String :=
  let d := fun v : String => levenshtein (lowerString (jsTrim input)).toList (lowerString (jsTrim v)).toList
  let eligible := vocab.filter (fun v => decide (d v ≤ threshold))
  let best := eligible.foldl (fun m v => min m (d v)) threshold
  eligible.find? (fun v => decide (d v = best))

/-- The result of `formatAddress` (src/scraper.js line 134). -/
structure FormattedAddress where
  text : String
  hasStreet : Bool
  hasRecognizedStreet : Bool
  hasRecognizedSuburb : Bool
deriving DecidableEq, Repr

/-- Split a list of characters into its maximal whitespace-free runs
(`current` is the reversed run being accumulated). -/
def splitRunsGo : List Char → List Char → List String
  | current, [] => if current = [] then [] else [String.mk current.reverse]
  | current, c :: cs =>
      if c.isWhitespace then
        if current = [] then splitRunsGo [] cs
        else String.mk current.reverse :: splitRunsGo [] cs
      else splitRunsGo (c :: current) cs

/-- JavaScript `s.split(/\s+/)` for an already trimmed string: the empty
string yields a singleton list holding the empty string, any other string
its whitespace-free runs. -/
def jsSplitWs (s : String) : List String :=
  if s = "" then [s] else splitRunsGo [] s.toList

/-- The suburb-extraction loop of `formatAddress` (src/scraper.js lines
142-147): up to five times, pop the last token (an exhausted token list
pops the empty string), prepend it to the accumulated suburb name, and
fuzzy-match against the suburb vocabulary with threshold 2.  Returns the
match (if any), the accumulated name, and the remaining tokens. -/
def suburbSearchGo (suburbs : List String) (idx : ℕ) (tokens : List String) (name : String) :
    ℕ → Option String × String × List String
  | 0 => (none, name, tokens)
  | fuel + 1 =>
      let t := tokens.getLastD ""
      let tokens := tokens.dropLast
      let name := if idx = 0 then t else t ++ " " ++ name
      match didyoumean name suburbs 2 with
      | some m => (some m, name, tokens)
      | none => suburbSearchGo suburbs (idx + 1) tokens name fuel

/-- Regex `^[0-9]+$`. -/
def isAllDigits (s : String) : Bool := decide (s ≠ "") && s.toList.all Char.isDigit

/-- Regex `^[0-9][A-Za-z]$`. -/
def isDigitLetter (s : String) : Bool :=
  match s.toList with
  | [d, l] => d.isDigit && l.isAlpha
  | _ => false

/-- The street-extraction loop of `formatAddress` (src/scraper.js lines
162-172): walk tokens from the front, skipping tokens that look like bare
street numbers (or are shorter than two characters); at each remaining
position fuzzy-match the joined tail against the street vocabulary with
threshold 3, stopping at the first match.  Returns the match (if any), the
joined name that matched, and the skipped tokens. -/
def streetSearchGo (streets : List String) : List String → List String →
    Option String × String × List String
  | [], removed => (none, "", removed)
  | token :: rest, removed =>
      if ¬ isAllDigits token ∧ ¬ isDigitLetter token ∧ 2 ≤ token.length then
        match didyoumean (joinSpace (token :: rest)) streets 3 with
        | some m => (some m, joinSpace (token :: rest), removed)
        | none => streetSearchGo streets rest (removed ++ [token])
      else streetSearchGo streets rest (removed ++ [token])

/-- `formatAddress` (src/scraper.js lines 132-188): extract and correct
the trailing suburb name and then the leading street name against the
reference vocabularies, reporting which parts were recognized. -/
def formatAddress (streets suburbs : List String) (address : String) : FormattedAddress :=
  let trimmed := jsTrim address
  let tokens := jsSplitWs trimmed
  let fa : FormattedAddress := ⟨trimmed, false, false, false⟩
  match suburbSearchGo suburbs 0 tokens "" 5 with
  | (none, _, _) => fa
  | (some suburbMatch, suburbName, tokens) =>
      if tokens.length = 0 then fa
      else
        let fa := { fa with hasRecognizedSuburb := true, hasStreet := decide (0 < tokens.length) }
        match streetSearchGo streets tokens [] with
        | (none, _, removed) =>
            if suburbMatch ≠ suburbName then
              { fa with text := jsTrim (joinSpace removed ++ " " ++ suburbMatch) }
            else fa
        | (some streetMatch, streetName, removed) =>
            let fa := { fa with hasRecognizedStreet := true }
            if streetMatch ≠ streetName ∨ suburbMatch ≠ suburbName then
              { fa with text := jsTrim (joinSpace removed ++ " " ++ streetMatch) ++ " " ++ suburbMatch }
            else fa

/-- `isApplicationNumber` (src/scraper.js lines 745-747, an earlier
revision kept in the repository): the strict regex
`^[0-9][0-9]\/[0-9]{1,4}$`. -/
def isApplicationNumber (text : String) : Bool :=
  match text.toList with
  | d1 :: d2 :: '/' :: rest =>
      d1.isDigit && d2.isDigit && decide (1 ≤ rest.length) && decide (rest.length ≤ 4) &&
        rest.all Char.isDigit
  | _ => false

/-! ### Record filter and pipeline (src/scraper.js lines 278-412) -/

/-- The final acceptance test of `parseLines` (src/scraper.js line 398): a
merged row is turned into a development application exactly when its
formatted address has a street and a recognized suburb, its application
number is non-blank with confidence at least 70, its address confidence is
at least 75, and a y coordinate was recorded for its first cell. -/
def recordFilter (streets suburbs : List String) (row : Row) : Bool :=
  (formatAddress streets suburbs (cellAt row 4).text).hasStreet &&
  (formatAddress streets suburbs (cellAt row 4).text).hasRecognizedSuburb &&
  decide ((cellAt row 1).text ≠ "") &&
  decide (70 ≤ (cellAt row 1).confidence) &&
  decide (75 ≤ (cellAt row 4).confidence) &&
  decide ((cellAt row 0).y ≠ none)

/-- `parseLines` up to the acceptance gate: the kept rows, or no rows at
all when five columns could not be located (src/scraper.js lines
282-339). -/
def parseLinesKept (lines : List Line) (sf : ℚ) : List Row :=
  match findColumns lines sf with
  | none => []
  | some cols => keptRows cols sf lines

/-- `parseLines` after the first merge stage: one merged row per
y-proximity bucket (src/scraper.js lines 344-358). -/
def parseLinesStage1 (lines : List Line) (sf : ℚ) : List Row :=
  (groupByY sf (parseLinesKept lines sf)).map (fun g => mergeRows g.rows)

/-- `parseLines` after the second merge stage: one merged row per distinct
application-number text (src/scraper.js lines 362-376). -/
def parseLinesMergedRows (lines : List Line) (sf : ℚ) : List Row :=
  (groupByApp (parseLinesStage1 lines sf)).map (fun g => mergeRows g.rows)

/-- The merged rows selected for emission as development applications
(src/scraper.js lines 381-409).  Each selected row yields exactly one
application record; the record's date fields are produced by the external
`moment` library and the current date, so the records themselves stay
outside the embedding. -/
def parseLinesSelectedRows (streets suburbs : List String) (lines : List Line) (sf : ℚ) :
    List Row :=
  (parseLinesMergedRows lines sf).filter (recordFilter streets suburbs)

/-! ### Image parsing coordinate translation (`parseImage`, src/scraper.js
lines 494-498) -/

/-- A word as returned by tesseract for one upscaled image band: bounding
box corners in the band's upsampled coordinate space, plus the list of
alternative choices. -/
structure TessBBox where
  x0 : ℚ
  y0 : ℚ
  x1 : ℚ
  y1 : ℚ
deriving DecidableEq, Repr

/-- A tesseract word for one band. -/
structure TessWord where
  text : String
  confidence : ℚ
  choices : List String
  bbox : TessBBox
deriving DecidableEq, Repr

/-- The word simplification of `parseImage` (src/scraper.js line 498):
`{ text, confidence, choices: choices.length, bounds: { x: bbox.x0,
y: sectionY * scaleFactor + bbox.y0, width: bbox.x1 - bbox.x0,
height: bbox.y1 - bbox.y0 } }` for a band starting at original-image row
`sectionY`. -/
def simplifyWord (sectionY sf : ℚ) (w : TessWord) : Word :=
  { text := w.text
    confidence := w.confidence
    choices := w.choices.length
    bounds :=
      { x := w.bbox.x0
        y := sectionY * sf + w.bbox.y0
        width := w.bbox.x1 - w.bbox.x0
        height := w.bbox.y1 - w.bbox.y0 } }

/-! ### Concrete inputs used by witnesses and counterexamples -/

/-- A sample recognized word. -/
def sampleWord (t : String) (x wdt conf : ℚ) : Word := ⟨t, conf, 0, ⟨x, 50, wdt, 10⟩⟩

/-- A sample received-date cell for merge buckets. -/
def c1date : Cell := ⟨some 50, ["29/01/2018"], "29/01/2018", [90], 90⟩

/-- A one-slash (wrong shape) application-number cell at high confidence,
the shape error of the spec (a lowercase l replacing a slash). -/
def c1wrong : Cell := ⟨some 50, ["077/586l2018"], "077/586l2018", [92], 92⟩

/-- The two-slash (correct shape) application-number cell at lower
confidence. -/
def c1right : Cell := ⟨some 50, ["077/586/2018"], "077/586/2018", [80], 80⟩

/-- Five lines of one word each, all at x = 0: every word opens its own
zero-width column cluster when the scale factor is 0. -/
def c2cexLines : List Line :=
  [[sampleWord "a" 0 1 90], [sampleWord "a" 0 1 90], [sampleWord "a" 0 1 90],
   [sampleWord "a" 0 1 90], [sampleWord "a" 0 1 90]]

/-- The five coincident columns the locator returns for `c2cexLines` at
scale factor 0. -/
def c2cexCols : List Column := [⟨0, 1⟩, ⟨0, 1⟩, ⟨0, 1⟩, ⟨0, 1⟩, ⟨0, 1⟩]

/-- Five lines of one word each at five separated x positions. -/
def c2wLines : List Line :=
  [[sampleWord "a" 0 1 90], [sampleWord "b" 100 1 90], [sampleWord "c" 200 1 90],
   [sampleWord "d" 300 1 90], [sampleWord "e" 400 1 90]]

/-- The five columns the locator finds for `c2wLines` at scale factor 1. -/
def c2wCols : List Column := [⟨0, 1⟩, ⟨100, 1⟩, ⟨200, 1⟩, ⟨300, 1⟩, ⟨400, 1⟩]

/-- One full table line: received date, application number, applicant,
reason, and a five-token address, with column starts at x = 0, 100, 200,
300, 400. -/
def c3line : Line :=
  [sampleWord "29/01/2018" 0 80 90, sampleWord "060/331/2018" 100 80 90,
   sampleWord "Smith" 200 50 90, sampleWord "Shed" 300 40 90,
   sampleWord "1" 400 8 90, sampleWord "Foo" 412 20 90, sampleWord "St" 434 12 90,
   sampleWord "PROSPECT" 448 40 90, sampleWord "SA" 490 12 90, sampleWord "5082" 504 20 90]

/-- The same physical row seen by five overlapping bands. -/
def c3lines : List Line := [c3line, c3line, c3line, c3line, c3line]

/-- Street-name reference vocabulary for the concrete runs. -/
def c3streets : List String := ["Foo St"]

/-- Suburb-name reference vocabulary for the concrete runs. -/
def c3suburbs : List String := ["PROSPECT SA 5082"]

/-- A line whose first word aligns with no column and whose second word
aligns with column 1. -/
def c6line : Line := [sampleWord "stray" 50 10 90, sampleWord "B" 100 10 90]

/-- A minimal row with a given first-cell y and text. -/
def yRow (y : Option ℚ) (t : String) : Row := [⟨y, [t], t, [90], 90⟩]

/-- A tesseract word at band-relative y0 = 10. -/
def c4word : TessWord := ⟨"w", 90, [], ⟨3, 10, 8, 20⟩⟩

/-- The merged row the concrete run produces. -/
def c3row : Row := (parseLinesMergedRows c3lines 1).headI

/-- A gate-surviving row of the concrete run. -/
def c10row : Row := (parseLinesKept c3lines 1).headI

/-- The rows used to exercise the y-proximity grouping. -/
def c7rows : List Row := [yRow (some 100) "a", yRow (some 104) "b", yRow (some 96) "c"]

/-- The single bucket the y-proximity grouping builds from `c7rows`. -/
def c7group : Group (Option ℚ) := (groupByY 1 c7rows).getD 0 ⟨none, []⟩

/-! #### Column locator lemmas -/

theorem colSep_symm {a : ℚ} : ∀ {c1 c2 : Column}, ColSep a c1 c2 → ColSep a c2 c1 := by
  intro c1 c2 h
  unfold ColSep at h ⊢
  rwa [abs_sub_comm]

theorem mem_addCandidate {a x : ℚ} :
    ∀ {cols : List Column}, ∀ d ∈ addCandidate a cols x, (∃ c ∈ cols, d.x = c.x) ∨ d.x = x := by
  intro cols
  induction cols with
  | nil =>
      intro d hd
      simp only [addCandidate, List.mem_singleton] at hd
      subst hd
      exact Or.inr rfl
  | cons c rest ih =>
      intro d hd
      by_cases hlt : |x - c.x| < a
      · simp only [addCandidate, if_pos hlt, List.mem_cons] at hd
        rcases hd with hd | hd
        · subst hd
          exact Or.inl ⟨c, List.mem_cons_self c rest, rfl⟩
        · exact Or.inl ⟨d, List.mem_cons_of_mem c hd, rfl⟩
      · simp only [addCandidate, if_neg hlt, List.mem_cons] at hd
        rcases hd with hd | hd
        · subst hd
          exact Or.inl ⟨d, List.mem_cons_self d rest, rfl⟩
        · rcases ih d hd with ⟨c', hc', hx⟩ | hx
          · exact Or.inl ⟨c', List.mem_cons_of_mem c hc', hx⟩
          · exact Or.inr hx

theorem addCandidate_sep {a x : ℚ} :
    ∀ {cols : List Column}, List.Pairwise (ColSep a) cols →
      List.Pairwise (ColSep a) (addCandidate a cols x) := by
  intro cols
  induction cols with
  | nil =>
      intro _
      simp [addCandidate]
  | cons c rest ih =>
      intro hp
      rcases List.pairwise_cons.1 hp with ⟨hc, hrest⟩
      by_cases hlt : |x - c.x| < a
      · simp only [addCandidate, if_pos hlt]
        exact List.pairwise_cons.2 ⟨fun d hd => hc d hd, hrest⟩
      · simp only [addCandidate, if_neg hlt]
        refine List.pairwise_cons.2 ⟨?_, ih hrest⟩
        intro d hd
        rcases mem_addCandidate d hd with ⟨c', hc', hx⟩ | hx
        · have := hc c' hc'
          unfold ColSep at this ⊢
          rwa [hx]
        · unfold ColSep
          rw [hx, abs_sub_comm]
          exact le_of_not_lt hlt

theorem scanLine_sep {gap a : ℚ} (line : Line) :
    ∀ (acc : List Column × Option Word), List.Pairwise (ColSep a) acc.1 →
      List.Pairwise (ColSep a)
        ((line.foldl
          (fun acc w =>
            match acc.2 with
            | none => (addCandidate a acc.1 w.bounds.x, some w)
            | some p =>
                (if gap ≤ w.bounds.x - (p.bounds.x + p.bounds.width) then
                   addCandidate a acc.1 w.bounds.x
                 else acc.1, some w))
          acc).1) := by
  induction line with
  | nil => intro acc h; exact h
  | cons w rest ih =>
      intro acc h
      rw [List.foldl_cons]
      apply ih
      rcases acc with ⟨cols, prev⟩
      cases prev with
      | none => exact addCandidate_sep h
      | some p =>
          by_cases hg : gap ≤ w.bounds.x - (p.bounds.x + p.bounds.width)
          · simpa [hg] using addCandidate_sep h
          · simpa [hg] using h

theorem candidateColumns_sep {gap a : ℚ} (lines : List Line) :
    List.Pairwise (ColSep a) (candidateColumns gap a lines) := by
  unfold candidateColumns
  suffices h : ∀ (cols : List Column), List.Pairwise (ColSep a) cols →
      List.Pairwise (ColSep a) (lines.foldl (scanLine gap a) cols) by
    exact h [] (by simp)
  induction lines with
  | nil => intro cols h; exact h
  | cons line rest ih =>
      intro cols h
      rw [List.foldl_cons]
      exact ih _ (scanLine_sep line (cols, none) h)

theorem sort_filter_sep {a : ℚ} {l : List Column} (p : Column → Bool)
    (h : List.Pairwise (ColSep a) l) :
    List.Pairwise (ColSep a) (List.insertionSort colLE (l.filter p)) := by
  have hperm := List.perm_insertionSort colLE (l.filter p)
  exact (hperm.pairwise_iff (fun hxy => colSep_symm hxy)).2 (h.filter p)

theorem tryGap_sep (lines : List Line) (sf : ℚ) (g : ℕ) :
    List.Pairwise (ColSep (ColumnAlignment * sf)) (tryGap lines sf g) := by
  unfold tryGap
  exact sort_filter_sep _ (@candidateColumns_sep ((g : ℚ) * sf) (ColumnAlignment * sf) lines)

theorem tryGap_sorted (lines : List Line) (sf : ℚ) (g : ℕ) :
    List.Sorted colLE (tryGap lines sf g) := by
  unfold tryGap
  exact List.sorted_insertionSort colLE _

theorem findColumnsAux_eq_tryGap (lines : List Line) (sf : ℚ) :
    ∀ gas cols, findColumnsAux lines sf gas = some cols →
      ∃ g, cols = tryGap lines sf g ∧ cols.length = 5 := by
  intro gas
  induction gas with
  | zero => intro cols h; simp [findColumnsAux] at h
  | succ g ih =>
      intro cols h
      unfold findColumnsAux at h
      by_cases h5 : (tryGap lines sf (g + 1)).length = 5
      · simp only [h5, if_true] at h
        obtain rfl : cols = tryGap lines sf (g + 1) := (Option.some.inj h).symm
        exact ⟨g + 1, rfl, h5⟩
      · simp only [h5, if_false] at h
        exact ih cols h

theorem findColumns_length {lines : List Line} {sf : ℚ} {cols : List Column}
    (h : findColumns lines sf = some cols) : cols.length = 5 := by
  rcases findColumnsAux_eq_tryGap lines sf ColumnGap cols h with ⟨g, _, hl⟩
  exact hl

theorem findColumns_strict_sorted {lines : List Line} {sf : ℚ} {cols : List Column}
    (hsf : 0 < sf) (h : findColumns lines sf = some cols) :
    List.Pairwise (fun c1 c2 => c1.x < c2.x) cols := by
  rcases findColumnsAux_eq_tryGap lines sf ColumnGap cols h with ⟨g, hg, _⟩
  have hsep : List.Pairwise (ColSep (ColumnAlignment * sf)) cols := hg ▸ tryGap_sep lines sf g
  have hsort : List.Pairwise colLE cols := hg ▸ tryGap_sorted lines sf g
  have hpos : 0 < ColumnAlignment * sf := by
    have : (0 : ℚ) < ColumnAlignment := by norm_num [ColumnAlignment]
    positivity
  refine (hsort.and hsep).imp ?_
  intro c1 c2 hc
  rcases hc with ⟨hle, hsep'⟩
  rcases lt_or_eq_of_le (hle : c1.x ≤ c2.x) with hlt | heq
  · exact hlt
  · exfalso
    unfold ColSep at hsep'
    rw [heq] at hsep'
    simp at hsep'
    exact absurd hsep' (not_le.2 hpos)

/-! ### Row assembler lemmas -/

theorem updateCell_length : ∀ (row : List Cell) (j : ℕ) (f : Cell → Cell),
    (updateCell row j f).length = row.length := by
  intro row
  induction row with
  | nil => intro j f; rfl
  | cons c rest ih =>
      intro j f
      cases j with
      | zero => rfl
      | succ j => simp [updateCell, ih]

theorem mem_updateCell : ∀ {row : List Cell} {j : ℕ} {f : Cell → Cell} {c : Cell},
    c ∈ updateCell row j f → c ∈ row ∨ (j < row.length ∧ c = f (row.getD j emptyCell)) := by
  intro row
  induction row with
  | nil => intro j f c h; simp [updateCell] at h
  | cons c0 rest ih =>
      intro j f c h
      cases j with
      | zero =>
          rcases List.mem_cons.1 h with h | h
          · exact Or.inr ⟨Nat.succ_pos _, by simpa using h⟩
          · exact Or.inl (List.mem_cons_of_mem c0 h)
      | succ j =>
          rcases List.mem_cons.1 h with h | h
          · exact Or.inl (h ▸ List.mem_cons_self c0 rest)
          · rcases ih h with h | ⟨hj, hc⟩
            · exact Or.inl (List.mem_cons_of_mem c0 h)
            · exact Or.inr ⟨Nat.succ_lt_succ hj, by simpa using hc⟩

theorem updateCell_getD (d : Cell) : ∀ {row : List Cell} {j : ℕ} (f : Cell → Cell),
    j < row.length → (updateCell row j f).getD j d = f (row.getD j d) := by
  intro row
  induction row with
  | nil => intro j f h; simp at h
  | cons c0 rest ih =>
      intro j f h
      cases j with
      | zero => rfl
      | succ j =>
          simp only [updateCell, List.getD_cons_succ]
          exact ih f (Nat.lt_of_succ_lt_succ h)

theorem getD_mem {α : Type} {l : List α} {j : ℕ} (h : j < l.length) (d : α) : l.getD j d ∈ l := by
  induction l generalizing j with
  | nil => simp at h
  | cons a rest ih =>
      cases j with
      | zero => exact List.mem_cons_self a rest
      | succ j => exact List.mem_cons_of_mem a (ih (Nat.lt_of_succ_lt_succ h))

theorem rowStep_some {cols : List Column} {sf : ℚ} {acc : List Cell × Option ℕ} {w : Word} {j : ℕ}
    (h : findAlignedIdx sf w.bounds.x cols = some j) :
    rowStep cols sf acc w = (pushWord w (updateCell acc.1 j (setCellY w)) j, some j) := by
  unfold rowStep
  rw [h]

theorem rowStep_none_some {cols : List Column} {sf : ℚ} {row : List Cell} {w : Word} {j : ℕ}
    (h : findAlignedIdx sf w.bounds.x cols = none) :
    rowStep cols sf (row, some j) w = (pushWord w row j, some j) := by
  unfold rowStep
  rw [h]

theorem rowStep_none_none {cols : List Column} {sf : ℚ} {row : List Cell} {w : Word}
    (h : findAlignedIdx sf w.bounds.x cols = none) :
    rowStep cols sf (row, none) w = (row, none) := by
  unfold rowStep
  rw [h]

theorem findAlignedIdx_lt {sf x : ℚ} :
    ∀ {cols : List Column} {j : ℕ}, findAlignedIdx sf x cols = some j → j < cols.length := by
  intro cols
  induction cols with
  | nil => intro j h; simp [findAlignedIdx] at h
  | cons c rest ih =>
      intro j h
      unfold findAlignedIdx at h
      by_cases hc : |c.x - x| < ColumnAlignment * sf
      · rw [if_pos hc] at h
        cases Option.some.inj h
        exact Nat.succ_pos _
      · rw [if_neg hc] at h
        cases hrec : findAlignedIdx sf x rest with
        | none => rw [hrec] at h; simp at h
        | some j0 =>
            rw [hrec] at h
            cases Option.some.inj h
            exact Nat.succ_lt_succ (ih hrec)

theorem foldl_rowStep_length (cols : List Column) (sf : ℚ) :
    ∀ (line : Line) (row : List Cell) (cur : Option ℕ),
      ((line.foldl (rowStep cols sf) (row, cur)).1).length = row.length := by
  intro line
  induction line with
  | nil => intro row cur; rfl
  | cons w rest ih =>
      intro row cur
      rw [List.foldl_cons]
      cases hfa : findAlignedIdx sf w.bounds.x cols with
      | some j => rw [rowStep_some hfa, ih]; simp [pushWord, updateCell_length]
      | none =>
          cases cur with
          | some j => rw [rowStep_none_some hfa, ih]; simp [pushWord, updateCell_length]
          | none => rw [rowStep_none_none hfa, ih]

theorem foldl_rowStep_conf_source (cols : List Column) (sf : ℚ) (P : ℚ → Prop) :
    ∀ (line : Line) (row : List Cell) (cur : Option ℕ),
      (∀ c ∈ row, ∀ q ∈ c.confidences, P q) → (∀ w ∈ line, P w.confidence) →
      ∀ c ∈ (line.foldl (rowStep cols sf) (row, cur)).1, ∀ q ∈ c.confidences, P q := by
  intro line
  induction line with
  | nil => intro row cur hrow _; exact hrow
  | cons w rest ih =>
      intro row cur hrow hline
      rw [List.foldl_cons]
      have hw : P w.confidence := hline w (List.mem_cons_self w rest)
      have hrest : ∀ w' ∈ rest, P w'.confidence :=
        fun w' hw' => hline w' (List.mem_cons_of_mem w hw')
      have hpush : ∀ (r : List Cell) (j : ℕ), (∀ c ∈ r, ∀ q ∈ c.confidences, P q) →
          ∀ c ∈ pushWord w r j, ∀ q ∈ c.confidences, P q := by
        intro r j hr c hc q hq
        rcases mem_updateCell hc with hc' | ⟨hjr, hc'⟩
        · exact hr c hc' q hq
        · subst hc'
          simp only [List.mem_append, List.mem_singleton] at hq
          rcases hq with hq | hq
          · exact hr _ (getD_mem hjr _) q hq
          · exact hq ▸ hw
      cases hfa : findAlignedIdx sf w.bounds.x cols with
      | some j =>
          rw [rowStep_some hfa]
          refine ih _ _ ?_ hrest
          refine hpush _ _ ?_
          intro c hc q hq
          rcases mem_updateCell hc with hc' | ⟨hjr, hc'⟩
          · exact hrow c hc' q hq
          · subst hc'
            exact hrow _ (getD_mem hjr _) q (by simpa [setCellY] using hq)
      | none =>
          cases cur with
          | some j =>
              rw [rowStep_none_some hfa]
              exact ih _ _ (hpush _ _ hrow) hrest
          | none =>
              rw [rowStep_none_none hfa]
              exact ih _ _ hrow hrest

/-- The routing invariant behind claims about non-empty cells: a cell only
accumulates confidences after its column matched a word, which records a
y; and the current cell always has a recorded y. -/
theorem foldl_rowStep_y (cols : List Column) (sf : ℚ) :
    ∀ (line : Line) (row : List Cell) (cur : Option ℕ),
      row.length = cols.length →
      (∀ c ∈ row, c.confidences ≠ [] → c.y ≠ none) →
      (∀ j, cur = some j → j < row.length ∧ (row.getD j emptyCell).y ≠ none) →
      ∀ c ∈ (line.foldl (rowStep cols sf) (row, cur)).1, c.confidences ≠ [] → c.y ≠ none := by
  intro line
  induction line with
  | nil => intro row cur _ hrow _; exact hrow
  | cons w rest ih =>
      intro row cur hlen hrow hcur
      rw [List.foldl_cons]
      cases hfa : findAlignedIdx sf w.bounds.x cols with
      | some j =>
          rw [rowStep_some hfa]
          have hj : j < row.length := hlen ▸ findAlignedIdx_lt hfa
          have hylen : (updateCell row j (setCellY w)).length = row.length := updateCell_length _ _ _
          have hyrow : ∀ c ∈ updateCell row j (setCellY w), c.confidences ≠ [] → c.y ≠ none := by
            intro c hc hne
            rcases mem_updateCell hc with hc' | ⟨_, hc'⟩
            · exact hrow c hc' hne
            · subst hc'; simp [setCellY]
          have hysome : ((updateCell row j (setCellY w)).getD j emptyCell).y ≠ none := by
            rw [updateCell_getD _ _ hj]
            simp [setCellY]
          refine ih _ _ ?_ ?_ ?_
          · simp [pushWord, updateCell_length, hylen, hlen]
          · intro c hc hne
            rcases mem_updateCell hc with hc' | ⟨_, hc'⟩
            · exact hyrow c hc' hne
            · subst hc'
              intro hy
              exact hysome (by simpa using hy)
          · intro j' hj'
            cases Option.some.inj hj'
            constructor
            · simpa [pushWord, updateCell_length, hylen] using hj
            · rw [pushWord, updateCell_getD _ _ (by rwa [hylen])]
              simpa using hysome
      | none =>
          cases cur with
          | some j =>
              rw [rowStep_none_some hfa]
              rcases hcur j rfl with ⟨hj, hy⟩
              refine ih _ _ (by simpa [pushWord, updateCell_length] using hlen) ?_ ?_
              · intro c hc hne
                rcases mem_updateCell hc with hc' | ⟨_, hc'⟩
                · exact hrow c hc' hne
                · subst hc'
                  intro hcon
                  exact hy (by simpa using hcon)
              · intro j' hj'
                cases Option.some.inj hj'
                constructor
                · simpa [pushWord, updateCell_length] using hj
                · rw [pushWord, updateCell_getD _ _ hj]
                  simpa using hy
          | none =>
              rw [rowStep_none_none hfa]
              exact ih _ _ hlen hrow hcur

theorem joinCellText_fields (i : ℕ) (c : Cell) :
    (joinCellText i c).y = c.y ∧ (joinCellText i c).confidence = c.confidence ∧
      (joinCellText i c).confidences = c.confidences := by
  unfold joinCellText
  split
  · exact ⟨rfl, rfl, rfl⟩
  · split
    · exact ⟨rfl, rfl, rfl⟩
    · exact ⟨rfl, rfl, rfl⟩

theorem mem_joinRowTexts :
    ∀ {i : ℕ} {row : List Cell} {c : Cell}, c ∈ joinRowTexts i row →
      ∃ i' c0, c0 ∈ row ∧ c = joinCellText i' c0 := by
  intro i row
  induction row generalizing i with
  | nil => intro c h; simp [joinRowTexts] at h
  | cons c0 rest ih =>
      intro c h
      rcases List.mem_cons.1 h with h | h
      · exact ⟨i, c0, List.mem_cons_self c0 rest, h⟩
      · rcases ih h with ⟨i', c1, hc1, hc⟩
        exact ⟨i', c1, List.mem_cons_of_mem c0 hc1, hc⟩

theorem joinRowTexts_length : ∀ (i : ℕ) (row : List Cell), (joinRowTexts i row).length = row.length := by
  intro i row
  induction row generalizing i with
  | nil => rfl
  | cons c rest ih => simp [joinRowTexts, ih]

theorem assembleRow_length (cols : List Column) (sf : ℚ) (line : Line) :
    (assembleRow cols sf line).length = cols.length := by
  unfold assembleRow assembleWords
  rw [joinRowTexts_length, List.length_map, foldl_rowStep_length, List.length_map]

/-- Every cell of an assembled row is the text-joined, confidence-averaged
version of a cell produced by the word-routing fold. -/
theorem assembleRow_cells {cols : List Column} {sf : ℚ} {line : Line} :
    ∀ cell ∈ assembleRow cols sf line, ∃ c0 ∈ (assembleWords cols sf line).1,
      cell.y = c0.y ∧ cell.confidences = c0.confidences ∧
      cell.confidence = c0.confidences.sum / ((max 1 c0.confidences.length : ℕ) : ℚ) := by
  intro cell hcell
  rcases mem_joinRowTexts hcell with ⟨i', c1, hc1, hcell'⟩
  rcases List.mem_map.1 hc1 with ⟨c0, hc0, hagg⟩
  refine ⟨c0, hc0, ?_, ?_, ?_⟩
  · rw [hcell', (joinCellText_fields i' c1).1, ← hagg]
    rfl
  · rw [hcell', (joinCellText_fields i' c1).2.2, ← hagg]
    rfl
  · rw [hcell', (joinCellText_fields i' c1).2.1, ← hagg]
    rfl

/-- Each cell's aggregate confidence is the guarded average of its own
accumulated confidences (src/scraper.js line 322). -/
theorem assembleRow_conf_formula {cols : List Column} {sf : ℚ} {line : Line} :
    ∀ cell ∈ assembleRow cols sf line,
      cell.confidence = cell.confidences.sum / ((max 1 cell.confidences.length : ℕ) : ℚ) := by
  intro cell hcell
  rcases assembleRow_cells cell hcell with ⟨c0, _, _, hconfs, hconf⟩
  rw [hconfs, hconf]

/-- A cell that accumulated any word has a recorded y. -/
theorem assembleRow_y_of_confidences {cols : List Column} {sf : ℚ} {line : Line} :
    ∀ cell ∈ assembleRow cols sf line, cell.confidences ≠ [] → cell.y ≠ none := by
  intro cell hcell hne
  rcases assembleRow_cells cell hcell with ⟨c0, hc0, hy, hconfs, _⟩
  rw [hy]
  refine foldl_rowStep_y cols sf line _ none (by simp) ?_ (by simp) c0 hc0 ?_
  · intro c hc hcne
    rcases List.mem_map.1 hc with ⟨_, _, hc'⟩
    rw [← hc'] at hcne
    simp [emptyCell] at hcne
  · rw [← hconfs]
    exact hne

theorem sum_nonneg_of : ∀ (l : List ℚ), (∀ q ∈ l, 0 ≤ q) → 0 ≤ l.sum := by
  intro l
  induction l with
  | nil => intro _; simp
  | cons q rest ih =>
      intro h
      rw [List.sum_cons]
      have hq := h q (List.mem_cons_self q rest)
      have hr := ih (fun q' hq' => h q' (List.mem_cons_of_mem q hq'))
      linarith

theorem sum_le_hundred_mul : ∀ (l : List ℚ), (∀ q ∈ l, q ≤ 100) → l.sum ≤ 100 * l.length := by
  intro l
  induction l with
  | nil => intro _; simp
  | cons q rest ih =>
      intro h
      rw [List.sum_cons, List.length_cons]
      have hq := h q (List.mem_cons_self q rest)
      have hr := ih (fun q' hq' => h q' (List.mem_cons_of_mem q hq'))
      push_cast
      linarith

/-- The acceptance gate, characterised (src/scraper.js lines 336-338). -/
theorem rowGate_iff (row : Row) :
    rowGate row = true ↔
      (∀ c ∈ row, 60 ≤ c.confidence) ∧
      (hasSlash (cellAt row 0).text = true ∨ hasSlash (cellAt row 1).text = true) := by
  unfold rowGate
  rw [Bool.and_eq_true, Bool.or_eq_true, Option.isNone_iff_eq_none, List.find?_eq_none]
  constructor
  · rintro ⟨h1, h2⟩
    refine ⟨fun c hc => ?_, h2⟩
    have := h1 c hc
    simp only [decide_eq_true_eq] at this
    exact le_of_not_lt this
  · rintro ⟨h1, h2⟩
    refine ⟨fun c hc => ?_, h2⟩
    simp only [decide_eq_true_eq]
    exact not_lt.2 (h1 c hc)

/-- Gate-surviving rows have no empty cells: an empty cell's confidence is
0, below the 60 cutoff. -/
theorem keptRows_cells {cols : List Column} {sf : ℚ} {lines : List Line} :
    ∀ row ∈ keptRows cols sf lines, ∀ c ∈ row, c.confidences ≠ [] ∧ c.y ≠ none := by
  intro row hrow c hc
  rcases List.mem_filter.1 hrow with ⟨hmem, hgate⟩
  rcases List.mem_map.1 hmem with ⟨line, _, hline⟩
  subst hline
  have h60 := ((rowGate_iff _).1 hgate).1 c hc
  have hform := assembleRow_conf_formula c hc
  have hne : c.confidences ≠ [] := by
    intro hnil
    rw [hnil] at hform
    simp at hform
    rw [hform] at h60
    norm_num at h60
  exact ⟨hne, assembleRow_y_of_confidences c hc hne⟩

theorem keptRows_length {cols : List Column} {sf : ℚ} {lines : List Line} :
    ∀ row ∈ keptRows cols sf lines, row.length = cols.length := by
  intro row hrow
  rcases List.mem_filter.1 hrow with ⟨hmem, _⟩
  rcases List.mem_map.1 hmem with ⟨line, _, hline⟩
  subst hline
  exact assembleRow_length cols sf line

/-! ### Row deduplicator lemmas -/

theorem mergeSlash_y (first : Cell) : ∀ (others : List Cell) (m : Cell),
    (others.foldl
      (fun m c =>
        if slashDistance c.text ≤ slashDistance first.text ∧ m.confidence < c.confidence then
          { m with text := c.text, confidence := c.confidence }
        else m)
      m).y = m.y := by
  intro others
  induction others with
  | nil => intro m; rfl
  | cons c rest ih =>
      intro m
      rw [List.foldl_cons]
      rw [ih]
      split
      · rfl
      · rfl

theorem mergeConf_y : ∀ (others : List Cell) (m : Cell),
    (others.foldl
      (fun m c =>
        if m.confidence < c.confidence then { m with text := c.text, confidence := c.confidence }
        else m)
      m).y = m.y := by
  intro others
  induction others with
  | nil => intro m; rfl
  | cons c rest ih =>
      intro m
      rw [List.foldl_cons]
      rw [ih]
      split
      · rfl
      · rfl

theorem mergeCellAt_y (i : ℕ) (first : Cell) (others : List Cell) :
    (mergeCellAt i first others).y = first.y := by
  unfold mergeCellAt
  split
  · exact mergeSlash_y first others first
  · exact mergeConf_y others first

theorem mergeRowsAux_length (rest : List Row) :
    ∀ (i : ℕ) (cs : List Cell), (mergeRowsAux rest i cs).length = cs.length := by
  intro i cs
  induction cs generalizing i with
  | nil => rfl
  | cons c cs' ih => simp [mergeRowsAux, ih]

theorem mergeRows_length (first : Row) (rest : List Row) :
    (mergeRows (first :: rest)).length = first.length := by
  unfold mergeRows
  exact mergeRowsAux_length rest 0 first

/-- Merging keeps the first row's first-cell y
(src/scraper.js lines 243-271 never touch `y`). -/
theorem mergeRows_head_y {first : Row} (rest : List Row) (h : first ≠ []) :
    (cellAt (mergeRows (first :: rest)) 0).y = (cellAt first 0).y := by
  rcases first with _ | ⟨c, cs⟩
  · exact absurd rfl h
  · show (cellAt (mergeRowsAux rest 0 (c :: cs)) 0).y = (cellAt (c :: cs) 0).y
    unfold mergeRowsAux cellAt
    simp only [List.getD_cons_zero]
    exact mergeCellAt_y 0 c _

theorem mergeCellAt_empty (i : ℕ) (c : Cell) : mergeCellAt i c [] = c := by
  unfold mergeCellAt mergeSlash mergeConf
  split
  · rfl
  · rfl

/-- Merging a singleton bucket changes nothing. -/
theorem mergeRowsAux_nil : ∀ (i : ℕ) (cs : List Cell), mergeRowsAux ([] : List Row) i cs = cs := by
  intro i cs
  induction cs generalizing i with
  | nil => rfl
  | cons c cs' ih =>
      show mergeCellAt i c _ :: mergeRowsAux [] (i + 1) cs' = c :: cs'
      rw [ih]
      simp [mergeCellAt_empty]

/-! ### Grouping lemmas -/

theorem mem_addToGroups {κ : Type} {isMatch : κ → Row → Bool} {mkKey : Row → κ}
    {row : Row} (P : Row → Prop) :
    ∀ {gs : List (Group κ)},
      (∀ g ∈ gs, g.rows ≠ [] ∧ ∀ r ∈ g.rows, P r) → P row →
      ∀ g ∈ addToGroups isMatch mkKey row gs, g.rows ≠ [] ∧ ∀ r ∈ g.rows, P r := by
  intro gs
  induction gs with
  | nil =>
      intro _ hrow g hg
      simp only [addToGroups, List.mem_singleton] at hg
      subst hg
      exact ⟨by simp, fun r hr => by rw [List.mem_singleton.1 hr]; exact hrow⟩
  | cons g0 rest ih =>
      intro hgs hrow g hg
      by_cases hm : isMatch g0.key row
      · simp only [addToGroups, if_pos hm, List.mem_cons] at hg
        rcases hg with hg | hg
        · subst hg
          rcases hgs g0 (List.mem_cons_self g0 rest) with ⟨hne, hall⟩
          refine ⟨by simp, fun r hr => ?_⟩
          simp only [List.mem_append, List.mem_singleton] at hr
          rcases hr with hr | hr
          · exact hall r hr
          · exact hr ▸ hrow
        · exact hgs g (List.mem_cons_of_mem g0 hg)
      · simp only [addToGroups, if_neg hm, List.mem_cons] at hg
        rcases hg with hg | hg
        · exact hg ▸ hgs g0 (List.mem_cons_self g0 rest)
        · exact ih (fun g' hg' => hgs g' (List.mem_cons_of_mem g0 hg')) hrow g hg

/-- Every bucket produced by `groupRows` is non-empty and only contains
rows from the input. -/
theorem groupRows_sound {κ : Type} {isMatch : κ → Row → Bool} {mkKey : Row → κ}
    (P : Row → Prop) :
    ∀ (rows : List Row) (gs : List (Group κ)),
      (∀ g ∈ gs, g.rows ≠ [] ∧ ∀ r ∈ g.rows, P r) → (∀ r ∈ rows, P r) →
      ∀ g ∈ rows.foldl (fun gs r => addToGroups isMatch mkKey r gs) gs,
        g.rows ≠ [] ∧ ∀ r ∈ g.rows, P r := by
  intro rows
  induction rows with
  | nil => intro gs hgs _; exact hgs
  | cons r rest ih =>
      intro gs hgs hrows
      rw [List.foldl_cons]
      exact ih _ (mem_addToGroups P hgs (hrows r (List.mem_cons_self r rest)))
        (fun r' hr' => hrows r' (List.mem_cons_of_mem r hr'))

/-- The bucket shape invariant: the key is derived from the bucket's first
row, and every later member matched the key when it was added. -/
theorem addToGroups_char {κ : Type} {isMatch : κ → Row → Bool} {mkKey : Row → κ} {row : Row} :
    ∀ {gs : List (Group κ)},
      (∀ g ∈ gs, ∃ r0 rs, g.rows = r0 :: rs ∧ g.key = mkKey r0 ∧
        ∀ r ∈ rs, isMatch g.key r = true) →
      ∀ g ∈ addToGroups isMatch mkKey row gs, ∃ r0 rs, g.rows = r0 :: rs ∧ g.key = mkKey r0 ∧
        ∀ r ∈ rs, isMatch g.key r = true := by
  intro gs
  induction gs with
  | nil =>
      intro _ g hg
      simp only [addToGroups, List.mem_singleton] at hg
      subst hg
      exact ⟨row, [], rfl, rfl, by simp⟩
  | cons g0 rest ih =>
      intro hgs g hg
      by_cases hm : isMatch g0.key row
      · simp only [addToGroups, if_pos hm, List.mem_cons] at hg
        rcases hg with hg | hg
        · subst hg
          rcases hgs g0 (List.mem_cons_self g0 rest) with ⟨r0, rs, hrows, hkey, hall⟩
          refine ⟨r0, rs ++ [row], by rw [hrows]; rfl, hkey, fun r hr => ?_⟩
          simp only [List.mem_append, List.mem_singleton] at hr
          rcases hr with hr | hr
          · exact hall r hr
          · exact hr ▸ hm
        · exact hgs g (List.mem_cons_of_mem g0 hg)
      · simp only [addToGroups, if_neg hm, List.mem_cons] at hg
        rcases hg with hg | hg
        · exact hg ▸ hgs g0 (List.mem_cons_self g0 rest)
        · exact ih (fun g' hg' => hgs g' (List.mem_cons_of_mem g0 hg')) g hg

theorem groupRows_char {κ : Type} {isMatch : κ → Row → Bool} {mkKey : Row → κ} :
    ∀ (rows : List Row) (gs : List (Group κ)),
      (∀ g ∈ gs, ∃ r0 rs, g.rows = r0 :: rs ∧ g.key = mkKey r0 ∧
        ∀ r ∈ rs, isMatch g.key r = true) →
      ∀ g ∈ rows.foldl (fun gs r => addToGroups isMatch mkKey r gs) gs,
        ∃ r0 rs, g.rows = r0 :: rs ∧ g.key = mkKey r0 ∧ ∀ r ∈ rs, isMatch g.key r = true := by
  intro rows
  induction rows with
  | nil => intro gs hgs; exact hgs
  | cons r rest ih =>
      intro gs hgs
      rw [List.foldl_cons]
      exact ih _ (addToGroups_char hgs)

/-! ### Pipeline lemmas -/

theorem parseLinesKept_facts {lines : List Line} {sf : ℚ} :
    ∀ row ∈ parseLinesKept lines sf,
      (∀ c ∈ row, c.confidences ≠ [] ∧ c.y ≠ none) ∧ row.length = 5 := by
  intro row hrow
  unfold parseLinesKept at hrow
  cases hfc : findColumns lines sf with
  | none => rw [hfc] at hrow; simp at hrow
  | some cols =>
      rw [hfc] at hrow
      exact ⟨keptRows_cells row hrow,
        (keptRows_length row hrow).trans (findColumns_length hfc)⟩

theorem parseLinesStage1_facts {lines : List Line} {sf : ℚ} :
    ∀ row ∈ parseLinesStage1 lines sf, (cellAt row 0).y ≠ none ∧ row.length = 5 := by
  intro row hrow
  rcases List.mem_map.1 hrow with ⟨g, hg, hmr⟩
  unfold groupByY groupRows at hg
  have hsound := groupRows_sound (fun r => r ∈ parseLinesKept lines sf)
    (parseLinesKept lines sf) [] (by simp) (fun r hr => hr) g hg
  rcases hsound with ⟨hne, hall⟩
  rcases List.exists_cons_of_ne_nil hne with ⟨r0, rs, hrows⟩
  have hr0 : r0 ∈ parseLinesKept lines sf := hall r0 (by rw [hrows]; exact List.mem_cons_self r0 rs)
  rcases parseLinesKept_facts r0 hr0 with ⟨hcells, hlen5⟩
  have hr0ne : r0 ≠ [] := by
    intro hnil
    rw [hnil] at hlen5
    simp at hlen5
  have hy : (cellAt r0 0).y ≠ none :=
    (hcells (cellAt r0 0) (getD_mem (by rw [hlen5]; norm_num) _)).2
  rw [← hmr, hrows]
  exact ⟨by rw [mergeRows_head_y rs hr0ne]; exact hy, by rw [mergeRows_length]; exact hlen5⟩

theorem parseLinesMergedRows_head_y {lines : List Line} {sf : ℚ} :
    ∀ row ∈ parseLinesMergedRows lines sf, (cellAt row 0).y ≠ none := by
  intro row hrow
  rcases List.mem_map.1 hrow with ⟨g, hg, hmr⟩
  unfold groupByApp groupRows at hg
  have hsound := groupRows_sound (fun r => (cellAt r 0).y ≠ none ∧ r.length = 5)
    (parseLinesStage1 lines sf) [] (by simp) (fun r hr => parseLinesStage1_facts r hr) g hg
  rcases hsound with ⟨hne, hall⟩
  rcases List.exists_cons_of_ne_nil hne with ⟨r0, rs, hrows⟩
  rcases hall r0 (by rw [hrows]; exact List.mem_cons_self r0 rs) with ⟨hy, hlen5⟩
  have hr0ne : r0 ≠ [] := by
    intro hnil
    rw [hnil] at hlen5
    simp at hlen5
  rw [← hmr, hrows, mergeRows_head_y rs hr0ne]
  exact hy

/-- Words before the first column-aligned word leave the routing state
unchanged. -/
theorem foldl_rowStep_dropWhile (cols : List Column) (sf : ℚ) :
    ∀ (line : Line) (row : List Cell),
      line.foldl (rowStep cols sf) (row, none) =
        (line.dropWhile (fun w => (findAlignedIdx sf w.bounds.x cols).isNone)).foldl
          (rowStep cols sf) (row, none) := by
  intro line
  induction line with
  | nil => intro row; rfl
  | cons w rest ih =>
      intro row
      simp only [List.dropWhile_cons]
      by_cases hw : (findAlignedIdx sf w.bounds.x cols).isNone = true
      · rw [if_pos hw, List.foldl_cons, rowStep_none_none (Option.isNone_iff_eq_none.1 hw)]
        exact ih row
      · rw [if_neg hw]

/-! ### The claims -/

/-- Claim C1: the spec asserts that for the received-date and
record-number columns `mergeRows` prefers the candidate whose text has
exactly two slashes over a candidate with a different slash count, even at
lower confidence.  The code (and its own comment) intend this, but the
replacement condition at src/scraper.js line 254 also requires strictly
higher confidence, so a lower-confidence two-slash candidate can never
displace a wrong-shape higher-confidence one: merging the bucket
holding the one-slash cell at confidence 92 first and the two-slash cell
at confidence 80 second keeps the one-slash cell. -/
theorem c1_mergeRows_keeps_confident_wrong_shape :
    cellAt (mergeRows [[c1date, c1wrong], [c1date, c1right]]) 1 = c1wrong ∧
    slashDistance c1right.text = 0 ∧ slashDistance c1wrong.text = 1 ∧
    c1right.confidence < c1wrong.confidence := by
  with_unfolding_all decide

/-- Counterexample to claim C2 as stated: for scale factor 0 (the claim
quantifies over every scale factor) the alignment tolerance collapses to
zero, so `findColumns` can return five columns sharing one x coordinate —
a returned column list that is not strictly ascending. -/
theorem c2_findColumns_unsorted_cex :
    findColumns c2cexLines 0 = some c2cexCols ∧ c2cexCols.length = 5 ∧
    ¬ List.Pairwise (fun c1 c2 => c1.x < c2.x) c2cexCols := by
  with_unfolding_all decide

/-- Claim C2, amended: whenever `findColumns` returns a column list it has
exactly five entries, and for every positive scale factor (the program
always uses 5.0) the five x coordinates are strictly ascending; on any
other input it returns `none` after exhausting the gap thresholds. -/
theorem c2_findColumns_five_sorted :
    ∀ (lines : List Line) (sf : ℚ) (cols : List Column),
      findColumns lines sf = some cols →
      cols.length = 5 ∧ (0 < sf → List.Pairwise (fun c1 c2 => c1.x < c2.x) cols) := by
  intro lines sf cols h
  exact ⟨findColumns_length h, fun hsf => findColumns_strict_sorted hsf h⟩

/-- Witness for the amended claim C2 at a concrete successful run. -/
theorem c2_findColumns_five_sorted_witness :
    c2wCols.length = 5 ∧ List.Pairwise (fun c1 c2 => c1.x < c2.x) c2wCols := by
  have h := c2_findColumns_five_sorted c2wLines 1 c2wCols (by with_unfolding_all decide)
  exact ⟨h.1, h.2 (by norm_num)⟩

/-- Counterexample to claim C3 as stated: a merged row whose
record-number text is a genuine three-part application number (two
slashes) is emitted, although it fails the strict `isApplicationNumber`
format check the claim requires of every emitted record — the final
filter at src/scraper.js line 398 never invokes that check. -/
theorem c3_selected_row_fails_format_check_cex :
    (parseLinesSelectedRows c3streets c3suburbs c3lines 1).map (fun r => (cellAt r 1).text) =
      ["060/331/2018"] ∧
    isApplicationNumber "060/331/2018" = false := by
  with_unfolding_all decide

/-- Claim C3, amended: a merged row is emitted as a persisted record if
and only if its formatted address has a street segment and a recognized
suburb, its record-number text is non-empty with confidence at least 70,
its address confidence is at least 75, and a y coordinate was recorded for
the row; no slash-pattern or strict format check is applied.  Rows failing
a conjunct are silently omitted from the returned list. -/
theorem c3_selection_iff :
    ∀ (streets suburbs : List String) (lines : List Line) (sf : ℚ) (row : Row),
      row ∈ parseLinesMergedRows lines sf →
      (row ∈ parseLinesSelectedRows streets suburbs lines sf ↔
        ((formatAddress streets suburbs (cellAt row 4).text).hasStreet = true ∧
         (formatAddress streets suburbs (cellAt row 4).text).hasRecognizedSuburb = true ∧
         (cellAt row 1).text ≠ "" ∧
         70 ≤ (cellAt row 1).confidence ∧
         75 ≤ (cellAt row 4).confidence ∧
         (cellAt row 0).y ≠ none)) := by
  intro streets suburbs lines sf row hrow
  unfold parseLinesSelectedRows
  rw [List.mem_filter]
  unfold recordFilter
  simp only [Bool.and_eq_true, decide_eq_true_eq]
  constructor
  · rintro ⟨_, h⟩
    tauto
  · intro h
    refine ⟨hrow, ?_⟩
    tauto

/-- Witness for the amended claim C3 at the concrete merged row. -/
theorem c3_selection_iff_witness :
    c3row ∈ parseLinesMergedRows c3lines 1 ∧
    (c3row ∈ parseLinesSelectedRows c3streets c3suburbs c3lines 1 ↔
      ((formatAddress c3streets c3suburbs (cellAt c3row 4).text).hasStreet = true ∧
       (formatAddress c3streets c3suburbs (cellAt c3row 4).text).hasRecognizedSuburb = true ∧
       (cellAt c3row 1).text ≠ "" ∧
       70 ≤ (cellAt c3row 1).confidence ∧
       75 ≤ (cellAt c3row 4).confidence ∧
       (cellAt c3row 0).y ≠ none)) :=
  ⟨by with_unfolding_all decide,
   c3_selection_iff c3streets c3suburbs c3lines 1 c3row (by with_unfolding_all decide)⟩

/-- Counterexample to claim C4 as stated: the y coordinate built at
src/scraper.js line 498 is not in un-upscaled original-image pixels.  For
a band at original row 5, scale factor 5 and a word at upsampled
band-relative y0 = 10, the stored y is 35, whereas the original-image
coordinate (band offset plus the scaled-down y0) is 7. -/
theorem c4_word_y_not_original_space_cex :
    (simplifyWord 5 5 c4word).bounds.y = 35 ∧
    (5 : ℚ) + c4word.bbox.y0 / 5 = 7 ∧
    (simplifyWord 5 5 c4word).bounds.y ≠ (5 : ℚ) + c4word.bbox.y0 / 5 := by
  with_unfolding_all decide

/-- Claim C4, amended: every produced word's y coordinate lives in the
upsampled OCR coordinate space — it is the original-space position
(band offset plus scaled-down y0) multiplied by the scale factor, i.e.
`sectionY * scaleFactor + y0`; downstream column and row logic
compensates by scaling its pixel thresholds by the same factor. -/
theorem c4_word_y_upsampled :
    ∀ (sectionY sf : ℚ) (w : TessWord), sf ≠ 0 →
      (simplifyWord sectionY sf w).bounds.y = (sectionY + w.bbox.y0 / sf) * sf := by
  intro sY sf w hsf
  show sY * sf + w.bbox.y0 = (sY + w.bbox.y0 / sf) * sf
  field_simp

/-- Witness for the amended claim C4 at the concrete band and word. -/
theorem c4_word_y_upsampled_witness :
    (5 : ℚ) ≠ 0 ∧ (simplifyWord 5 5 c4word).bounds.y = ((5 : ℚ) + c4word.bbox.y0 / 5) * 5 :=
  ⟨by norm_num, c4_word_y_upsampled 5 5 c4word (by norm_num)⟩

/-- Claim C5: an assembled row is kept if and only if every cell's
confidence is at least 60 and the received-date or record-number text
contains a slash (src/scraper.js lines 336-338); rows failing the gate are
silently dropped from the returned list. -/
theorem c5_row_acceptance_iff :
    ∀ (cols : List Column) (sf : ℚ) (lines : List Line) (line : Line), line ∈ lines →
      (assembleRow cols sf line ∈ keptRows cols sf lines ↔
        ((∀ c ∈ assembleRow cols sf line, 60 ≤ c.confidence) ∧
         (hasSlash (cellAt (assembleRow cols sf line) 0).text = true ∨
          hasSlash (cellAt (assembleRow cols sf line) 1).text = true))) := by
  intro cols sf lines line hline
  unfold keptRows
  rw [List.mem_filter]
  constructor
  · rintro ⟨_, hgate⟩
    exact (rowGate_iff _).1 hgate
  · intro h
    exact ⟨List.mem_map.2 ⟨line, hline, rfl⟩, (rowGate_iff _).2 h⟩

/-- Witness for claim C5 at the concrete line. -/
theorem c5_row_acceptance_iff_witness :
    c3line ∈ [c3line] ∧
    (assembleRow c2wCols 1 c3line ∈ keptRows c2wCols 1 [c3line] ↔
      ((∀ c ∈ assembleRow c2wCols 1 c3line, 60 ≤ c.confidence) ∧
       (hasSlash (cellAt (assembleRow c2wCols 1 c3line) 0).text = true ∨
        hasSlash (cellAt (assembleRow c2wCols 1 c3line) 1).text = true))) :=
  ⟨List.mem_singleton.2 rfl,
   c5_row_acceptance_iff c2wCols 1 [c3line] c3line (List.mem_singleton.2 rfl)⟩

/-- Counterexample to claim C6 as stated: the current-cell pointer starts
as null, not at column 0 (src/scraper.js line 299), so a leading word that
aligns with no column is discarded — the first cell stays empty — while
the following column-aligned word lands in its column's cell. -/
theorem c6_leading_word_discarded_cex :
    (cellAt (assembleRow c2wCols 1 c6line) 0).texts = [] ∧
    (cellAt (assembleRow c2wCols 1 c6line) 1).texts = ["B"] ∧
    findAlignedIdx 1 50 c2wCols = none := by
  with_unfolding_all decide

/-- Claim C6, amended: the current-cell pointer starts as null, so every
leading word that does not align with any column is ignored entirely: the
assembled row is the same as if those leading words were absent. -/
theorem c6_leading_unaligned_words_ignored :
    ∀ (cols : List Column) (sf : ℚ) (line : Line),
      assembleRow cols sf line =
        assembleRow cols sf
          (line.dropWhile (fun w => (findAlignedIdx sf w.bounds.x cols).isNone)) := by
  intro cols sf line
  unfold assembleRow assembleWords
  rw [foldl_rowStep_dropWhile]

/-- Counterexample to claim C7 as stated: grouping is greedy against the
bucket's first row, not pairwise — three rows at y = 100, 104, 96 end in
one bucket although 104 and 96 are more than `LineAlignment` apart — and
two distinct rows with no recorded y also share one bucket, because
JavaScript coerces the null y to 0 in the distance computation. -/
theorem c7_grouping_cex :
    ((groupByY 1 c7rows).map (fun g => g.rows.length) = [3] ∧
      ¬ |jsCoerce (cellAt (yRow (some 104) "b") 0).y -
          jsCoerce (cellAt (yRow (some 96) "c") 0).y| < LineAlignment * 1) ∧
    ((groupByY 1 [yRow none "a", yRow none "b"]).map (fun g => g.rows.length) = [2] ∧
      (cellAt (yRow none "a") 0).y = none ∧ (cellAt (yRow none "b") 0).y = none ∧
      yRow none "a" ≠ yRow none "b") := by
  with_unfolding_all decide

/-- Claim C7, amended: the first deduplication stage groups greedily — a
row joins the first bucket whose stored key (the first member's first-cell
y, with a missing y read as 0) is within `LineAlignment * scaleFactor` of
the row's own first-cell y (missing read as 0), else it opens a new
bucket.  Hence every bucket is keyed by its first row's y and every later
member was within the tolerance of that key; rows lacking a y are treated
as y = 0 and can share a bucket. -/
theorem c7_grouping_greedy_char :
    ∀ (sf : ℚ) (rows : List Row) (g : Group (Option ℚ)), g ∈ groupByY sf rows →
      ∃ r0 rs, g.rows = r0 :: rs ∧ g.key = (cellAt r0 0).y ∧
        ∀ r ∈ rs, |jsCoerce g.key - jsCoerce (cellAt r 0).y| < LineAlignment * sf := by
  intro sf rows g hg
  unfold groupByY groupRows at hg
  rcases groupRows_char rows [] (by simp) g hg with ⟨r0, rs, hrows, hkey, hmatch⟩
  refine ⟨r0, rs, hrows, hkey, fun r hr => ?_⟩
  have h := hmatch r hr
  unfold yMatch at h
  exact of_decide_eq_true h

/-- Witness for the amended claim C7 at the concrete bucket. -/
theorem c7_grouping_greedy_char_witness :
    c7group ∈ groupByY 1 c7rows ∧
    (∃ r0 rs, c7group.rows = r0 :: rs ∧ c7group.key = (cellAt r0 0).y ∧
      ∀ r ∈ rs, |jsCoerce c7group.key - jsCoerce (cellAt r 0).y| < LineAlignment * 1) :=
  ⟨by with_unfolding_all decide,
   c7_grouping_greedy_char 1 c7rows c7group (by with_unfolding_all decide)⟩

/-- Claim C8: for five located columns, every assembled row has exactly
five cells; given in-range word confidences, every cell's aggregate
confidence lies in [0, 100], equals the arithmetic mean of the cell's word
confidences when the cell received words, and is exactly 0 (never an
undefined value) when it received none. -/
theorem c8_row_shape_and_confidence :
    ∀ (cols : List Column) (sf : ℚ) (line : Line),
      cols.length = 5 →
      (∀ w ∈ line, 0 ≤ w.confidence ∧ w.confidence ≤ 100) →
      (assembleRow cols sf line).length = 5 ∧
      ∀ cell ∈ assembleRow cols sf line,
        0 ≤ cell.confidence ∧ cell.confidence ≤ 100 ∧
        (cell.confidences ≠ [] →
          cell.confidence = cell.confidences.sum / (cell.confidences.length : ℚ)) ∧
        (cell.confidences = [] → cell.confidence = 0) := by
  intro cols sf line hcols hconf
  refine ⟨by rw [assembleRow_length, hcols], ?_⟩
  intro cell hcell
  have hform := assembleRow_conf_formula cell hcell
  have hbounds : ∀ q ∈ cell.confidences, 0 ≤ q ∧ q ≤ 100 := by
    rcases assembleRow_cells cell hcell with ⟨c0, hc0, _, hconfs, _⟩
    rw [hconfs]
    refine foldl_rowStep_conf_source cols sf (fun q => 0 ≤ q ∧ q ≤ 100) line _ none ?_ hconf c0 hc0
    intro c hc q hq
    rcases List.mem_map.1 hc with ⟨_, _, hc'⟩
    rw [← hc'] at hq
    simp [emptyCell] at hq
  by_cases hnil : cell.confidences = []
  · rw [hnil] at hform
    simp only [List.sum_nil, List.length_nil] at hform
    norm_num at hform
    refine ⟨by rw [hform], by rw [hform]; norm_num, fun h => absurd hnil h, fun _ => hform⟩
  · have hlen : 1 ≤ cell.confidences.length := by
      rcases List.exists_cons_of_ne_nil hnil with ⟨q, qs, hqs⟩
      rw [hqs]
      simp
    have hmax : max 1 cell.confidences.length = cell.confidences.length := by omega
    rw [hmax] at hform
    have hlenpos : (0 : ℚ) < (cell.confidences.length : ℚ) := by
      exact_mod_cast hlen
    have hsumnn : 0 ≤ cell.confidences.sum :=
      sum_nonneg_of _ (fun q hq => (hbounds q hq).1)
    have hsumle : cell.confidences.sum ≤ 100 * cell.confidences.length :=
      sum_le_hundred_mul _ (fun q hq => (hbounds q hq).2)
    refine ⟨?_, ?_, fun _ => hform, fun h => absurd h hnil⟩
    · rw [hform]
      positivity
    · rw [hform]
      rw [div_le_iff₀ hlenpos]
      linarith

/-- Witness for claim C8 at the concrete columns and line. -/
theorem c8_row_shape_and_confidence_witness :
    c2wCols.length = 5 ∧ (∀ w ∈ c3line, 0 ≤ w.confidence ∧ w.confidence ≤ 100) ∧
    ((assembleRow c2wCols 1 c3line).length = 5 ∧
      ∀ cell ∈ assembleRow c2wCols 1 c3line,
        0 ≤ cell.confidence ∧ cell.confidence ≤ 100 ∧
        (cell.confidences ≠ [] →
          cell.confidence = cell.confidences.sum / (cell.confidences.length : ℚ)) ∧
        (cell.confidences = [] → cell.confidence = 0)) :=
  ⟨by decide, by with_unfolding_all decide,
   c8_row_shape_and_confidence c2wCols 1 c3line (by decide) (by with_unfolding_all decide)⟩

/-- Claim C9: merging a singleton bucket returns its row unchanged —
`mergeRows` only iterates over the later rows of a bucket, so with none
present every cell keeps its text and confidence. -/
theorem c9_mergeRows_singleton_id : ∀ r : Row, mergeRows [r] = r := by
  intro r
  show mergeRowsAux [] 0 r = r
  exact mergeRowsAux_nil 0 r

/-- Claim C10: every row that passes the 60-percent gate has cells that
all received at least one word and so carry a recorded y (a cell only
accumulates words after a column match, which records its y, and an empty
cell's confidence 0 fails the gate); consequently every merged row
reaching the final filter satisfies the `row[0].y !== null` conjunct, so
that rejection branch never fires. -/
theorem c10_gate_rows_have_words_and_y :
    ∀ (lines : List Line) (sf : ℚ) (row : Row), row ∈ parseLinesKept lines sf →
      (row.all (fun c => !c.confidences.isEmpty && c.y.isSome) = true) ∧
      ((parseLinesMergedRows lines sf).all (fun r => ((cellAt r 0).y).isSome) = true) := by
  intro lines sf row hrow
  constructor
  · rw [List.all_eq_true]
    intro c hc
    rcases (parseLinesKept_facts row hrow).1 c hc with ⟨hconf, hy⟩
    rw [Bool.and_eq_true]
    constructor
    · simp only [Bool.not_eq_true']
      rw [List.isEmpty_eq_false_iff_exists_mem]
      rcases List.exists_cons_of_ne_nil hconf with ⟨q, qs, hqs⟩
      exact ⟨q, by rw [hqs]; exact List.mem_cons_self q qs⟩
    · exact Option.isSome_iff_ne_none.2 hy
  · rw [List.all_eq_true]
    intro r hr
    exact Option.isSome_iff_ne_none.2 (parseLinesMergedRows_head_y r hr)

/-- Witness for claim C10 at a concrete gate-surviving row. -/
theorem c10_gate_rows_have_words_and_y_witness :
    c10row ∈ parseLinesKept c3lines 1 ∧
    ((c10row.all (fun c => !c.confidences.isEmpty && c.y.isSome) = true) ∧
      ((parseLinesMergedRows c3lines 1).all (fun r => ((cellAt r 0).y).isSome) = true)) :=
  ⟨by with_unfolding_all decide,
   c10_gate_rows_have_words_and_y c3lines 1 c10row (by with_unfolding_all decide)⟩

end Scraper
